import Mathlib

/-
  Verification of the pdf-search positions store, frame codec, extraction
  driver and search layer, against a shallow embedding of the Go sources.
  Layout: all definitions (the embedding) first, then all theorems.

  Embedding conventions:
  * Go machine integers (uint32, uint64, int) are modelled as Nat / Int;
    none of the verified claims exercises wrap-around arithmetic.
  * Go float32 / float64 coordinate fields are only ever copied and compared
    with min / max by the code under verification, never computed with, so
    they are modelled as Int (any linear order is an exact model of that use).
  * A Go function returning (values, error) is modelled as returning the
    values together with an `Option GoErr`; a Go panic is modelled as the
    `Except.error` of a surrounding `Except GoErr`.
  * Go maps are modelled as functions into Option, or as association lists
    where noted.
  * File contents are modelled as `List Nat` (one Nat per byte); file system
    side effects (paths, directory creation) that no claim observes are
    dropped.
  * The flatbuffers builder (external library github.com/google/flatbuffers)
    is modelled at field granularity: `MakeDocPageLocations` /
    `ReadDocPageLocations` record exactly the fields the Go code passes to /
    reads from the builder (serial/doc_page_locations.go, addTextLocation and
    getTextLocation). Where the byte image of a frame matters (CRC checks),
    the encoder is an arbitrary function parameter `enc`.
-/

set_option autoImplicit false

namespace PdfSearch

/-! ## Error kinds and data model (serial/doc_page_locations.go) -/

/-- Error/panic kinds of the Go code, one constructor per distinct
`errors.New` / `fmt.Errorf` / `panic` site relevant to the claims. -/
inductive GoErr where
  | zeroPageNumber   -- doc_positions.go AddDocPage: panic("pageNum = 0 should never happen")
  | badChecksum      -- doc_positions.go readPersistedPagePositions: panic("bad checksum")
  | duplicatePdf     -- positions_store.go CreatePositionsDoc: errors.New("duplicate PDF")
  | badSpan          -- readPersistedPagePositions: "Bad span pageIdx=..."
  | badPageIdx       -- ReadPagePositions (memory): "Bad pageIdx=..."
  | noPageNum        -- ReadPagePositions (memory): "No pageNum."
  | invalidMode      -- DocPositions.isMem: panic("should not happen")
  | indexOutOfRange  -- Go runtime panic: slice index out of range
  | rangeErr         -- positions_store.go baseFields: ErrRange
  deriving DecidableEq, Repr

/-- serial.TextLocation (serial/doc_page_locations.go): a text run's start and
end offsets in the page text and its bounding box. Coordinates are float32 in
Go; the code only copies and min/max-compares them, modelled by Int. -/
structure TextLocation where
  Start : Nat
  End : Nat
  Llx : Int
  Lly : Int
  Urx : Int
  Ury : Int
  deriving DecidableEq, Repr

instance : Inhabited TextLocation := ⟨⟨0, 0, 0, 0, 0, 0⟩⟩

/-- serial.DocPageLocations (serial/doc_page_locations.go): the positional
record of one page. -/
structure DocPageLocations where
  Doc : Nat
  Page : Nat
  Locations : List TextLocation
  deriving DecidableEq, Repr

instance : Inhabited DocPageLocations := ⟨⟨0, 0, []⟩⟩

/-! ## Frame codec, field-granularity model of the flatbuffer payload
`WireTextLocation` holds exactly the fields written by addTextLocation
(serial/doc_page_locations.go lines 94-103): offset, llx, lly, urx, ury.
There is no end field on the wire. -/

/-- The fields of one TextLocation that cross the wire. -/
structure WireTextLocation where
  offset : Nat
  llx : Int
  lly : Int
  urx : Int
  ury : Int
  deriving DecidableEq, Repr

/-- The fields of one DocPageLocations that cross the wire
(DocPageLocationsAddDoc / AddPage / AddLocations). -/
structure WireDocPageLocations where
  doc : Nat
  page : Nat
  locations : List WireTextLocation
  deriving DecidableEq, Repr

/-- addTextLocation (serial/doc_page_locations.go): writes Start (as offset),
Llx, Lly, Urx, Ury. The End field is not written. -/
def addTextLocation (loc : TextLocation) : WireTextLocation :=
  ⟨loc.Start, loc.Llx, loc.Lly, loc.Urx, loc.Ury⟩

/-- getTextLocation (serial/doc_page_locations.go): reads a TextLocation back
from the wire; the second field (End) is the literal 0 in the Go source. -/
def getTextLocation (w : WireTextLocation) : TextLocation :=
  ⟨w.offset, 0, w.llx, w.lly, w.urx, w.ury⟩

/-- MakeDocPageLocations (serial/doc_page_locations.go lines 123-150):
writes each location, then doc and page. -/
def MakeDocPageLocations (dpl : DocPageLocations) : WireDocPageLocations :=
  ⟨dpl.Doc, dpl.Page, dpl.Locations.map addTextLocation⟩

/-- ReadDocPageLocations (serial/doc_page_locations.go lines 152-176):
reads every location with getTextLocation, then doc and page. -/
def ReadDocPageLocations (w : WireDocPageLocations) : DocPageLocations :=
  ⟨w.doc, w.page, w.locations.map getTextLocation⟩

/-! ## CRC-32/IEEE, the checksum used by hash/crc32.ChecksumIEEE: reflected
polynomial 0xEDB88320, initial value and final xor 0xFFFFFFFF. -/

def crc32Poly : Nat := 0xEDB88320

/-- One bit step of the reflected CRC-32 division. -/
def crc32Step (c : Nat) : Nat :=
  if c % 2 = 1 then (c / 2) ^^^ crc32Poly else c / 2

/-- Absorb one byte into the running CRC. -/
def crc32Byte (c b : Nat) : Nat :=
  crc32Step^[8] (c ^^^ (b % 256))

/-- crc32.ChecksumIEEE of a byte sequence. -/
def crc32 (bs : List Nat) : Nat :=
  (bs.foldl crc32Byte 0xFFFFFFFF) ^^^ 0xFFFFFFFF

/-! ## Model of Go's sort.Search (used by getPositionIndex and getLineNumber):
by its documented contract it returns the smallest i in [0, n) with f i,
and n when there is none. `searchFrom f k i` scans k indices upward from i. -/

def searchFrom (f : Nat → Bool) : Nat → Nat → Nat
  | 0, i => i
  | k + 1, i => if f i then i else searchFrom f k (i + 1)

def goSortSearch (n : Nat) (f : Nat → Bool) : Nat :=
  searchFrom f n 0

/-! ## Extraction driver (extract_text.go)

processPDFPages iterates `for pageNum := uint32(1); pageNum < uint32(numPages);
pageNum++`, calling `pdfReader.GetPage(pageNum)` then
`processPage(pageNum, page)`; either error aborts the loop. The loop is
modelled with an explicit fuel equal to `numPages` (an upper bound on the
iteration count, so the guard `pageNum < numPages` is always the one that
terminates it); `getPage` and `processPage` are the external calls, returning
`some e` on error. The model returns the list of page numbers the callback
was invoked on, and the error result. -/

def processLoop (getPage processPage : Nat → Option GoErr) (numPages : Nat) :
    Nat → Nat → List Nat × Option GoErr
  | 0, _ => ([], none)
  | fuel + 1, pageNum =>
    if pageNum < numPages then
      match getPage pageNum with
      | some e => ([], some e)
      | none =>
        match processPage pageNum with
        | some e => ([pageNum], some e)
        | none =>
          let r := processLoop getPage processPage numPages fuel (pageNum + 1)
          (pageNum :: r.1, r.2)
    else ([], none)

/-- processPDFPages: run the loop from pageNum = 1. -/
def processPDFPages (getPage processPage : Nat → Option GoErr) (numPages : Nat) :
    List Nat × Option GoErr :=
  processLoop getPage processPage numPages numPages 1

/-! ## Search layer (doclib/positions_search.go) -/

/-- PdfMatch (doclib/positions_search.go lines 27-43), flattening the
embedded `match` struct. Score is a float64 the code only stores, modelled
as Int; SearchDuration below is a time.Duration (int64 nanoseconds). -/
structure PdfMatch where
  InPath : String
  PageNum : Nat
  LineNum : Int
  Line : String
  dpl : DocPageLocations
  docIdx : Nat
  pageIdx : Nat
  Score : Int
  Fragment : String
  Start : Nat
  End : Nat
  deriving DecidableEq, Repr

/-- PdfMatchSet (doclib/positions_search.go lines 19-23). -/
structure PdfMatchSet where
  TotalMatches : Int
  SearchDuration : Int
  Matches : List PdfMatch
  deriving DecidableEq, Repr

/-- The loop body of Filter (positions_search.go lines 169-183): the Go map
`fileCounts` is modelled as a function with pointwise update; the count for
the match's path is incremented first, then the match is kept iff the new
count is at most maxResultsPerFile. -/
def filterLoop (maxResultsPerFile : Int) :
    (String → Nat) → List PdfMatch → List PdfMatch
  | _, [] => []
  | counts, m :: ms =>
    let c := counts m.InPath + 1
    let counts' := fun k => if k = m.InPath then c else counts k
    if (c : Int) ≤ maxResultsPerFile then
      m :: filterLoop maxResultsPerFile counts' ms
    else
      filterLoop maxResultsPerFile counts' ms

/-- PdfMatchSet.Filter: keeps at most maxResultsPerFile matches per InPath,
copying TotalMatches and SearchDuration unchanged. -/
def Filter (s : PdfMatchSet) (maxResultsPerFile : Int) : PdfMatchSet :=
  { TotalMatches := s.TotalMatches
    SearchDuration := s.SearchDuration
    Matches := filterLoop maxResultsPerFile (fun _ => 0) s.Matches }

/-- getPositionIndex (doclib/positions_search.go lines 371-379):
sort.Search for the first run with Start >= offset; ok reports the index in
range. -/
def getPositionIndex (positions : List TextLocation) (offset : Nat) : Nat × Bool :=
  let i := goSortSearch positions.length
    (fun i => decide (offset ≤ (positions.getD i default).Start))
  (i, decide (i < positions.length))

/-- GetPosition (doclib/positions_search.go lines 354-369): the zero
rectangle when either binary search runs out of range, otherwise the
min/max envelope of the two runs found for the end offset (p0) and the
start offset (p1). -/
def GetPosition (positions : List TextLocation) (s e : Nat) : TextLocation :=
  let r0 := getPositionIndex positions e
  let r1 := getPositionIndex positions s
  if r0.2 && r1.2 then
    let p0 := positions.getD r0.1 default
    let p1 := positions.getD r1.1 default
    { Start := s, End := e,
      Llx := min p0.Llx p1.Llx, Lly := min p0.Lly p1.Lly,
      Urx := max p0.Urx p1.Urx, Ury := max p0.Ury p1.Ury }
  else default

/-- Rectangle r contains the bounding box of run l. -/
def containsLoc (r l : TextLocation) : Prop :=
  r.Llx ≤ l.Llx ∧ r.Lly ≤ l.Lly ∧ l.Urx ≤ r.Urx ∧ l.Ury ≤ r.Ury

instance (r l : TextLocation) : Decidable (containsLoc r l) := by
  unfold containsLoc
  infer_instance

/-! ## Line-number lookup (doclib/positions_search.go)

Text is modelled as List Char (the Go code slices by byte offset and the
relevant characters are one-byte); getLineNumber returns none where the Go
code would panic on the endings[i] access (offset beyond the last line
ending, possible only when ok would be false). -/

/-- The scan loop of lineEndings (positions_search.go lines 339-346): the
Go loop repeatedly finds the next "\n" from the current offset and records
its absolute index, i.e. it collects the indices of every newline in
ascending order. `a` is the absolute index of the head of the remaining
list. -/
def nlPositions : List Char → Nat → List Nat
  | [], _ => []
  | c :: cs, i => if c = '\n' then i :: nlPositions cs (i + 1) else nlPositions cs (i + 1)

/-- lineEndings (positions_search.go lines 334-352): a synthetic
terminating newline is appended when the text is empty or does not end
with one; the result is 0 followed by every newline index of the extended
text. -/
def lineEndings (text : List Char) : List Nat :=
  let t := if text.length = 0 ∨ text.getLast? ≠ some '\n' then text ++ ['\n'] else text
  0 :: nlPositions t 0

/-- The line text built by getLineNumber (positions_search.go lines
326-330): text[ofs0:ofs1] with a leading newline stripped. -/
def lineFor (text : List Char) (ofs0 ofs1 : Nat) : List Char :=
  let line := (text.drop ofs0).take (ofs1 - ofs0)
  if line.head? = some '\n' then line.tail else line

/-- getLineNumber (positions_search.go lines 314-332): i is the
sort.Search result (least index with endings[i] > offset); when i is in
range the line between endings[i-1] and endings[i] is returned, otherwise
the Go code panics on endings[i] (modelled as none). -/
def getLineNumber (text : List Char) (offset : Nat) : Option (Nat × List Char) :=
  let endings := lineEndings text
  let n := endings.length
  let i := goSortSearch n (fun j => decide (offset < endings.getD j 0))
  if i < n then
    some (i, lineFor text (endings.getD (i - 1) 0) (endings.getD i 0))
  else none

/-! ## DocPositions (doclib/doc_positions.go)

The per-document positions container. `docPersist` keeps the append-only
data file (as bytes), the byteSpan sidecar and the page-text files (one
string per page index, appended in order, modelling the NNN.txt files);
`docData` keeps the two in-memory parallel vectors. The Go map
`pageDpl : map[uint32]serial.DocPageLocations` is an association list with
the newest binding first. -/

/-- byteSpan (doc_positions.go lines 51-56). -/
structure ByteSpan where
  Offset : Nat
  Size : Nat
  Check : Nat
  PageNum : Nat
  deriving DecidableEq, Repr

/-- docPersist (doc_positions.go lines 32-39); paths dropped, file contents
kept. textFiles models the <hash>.pages/NNN.txt directory: the file for
page index i is entry i (AddDocPage always writes index = new page count-1,
so the entries are created in order). -/
structure DocPersistState where
  spans : List ByteSpan
  fileBytes : List Nat
  textFiles : List String
  deriving DecidableEq, Repr

/-- docData (doc_positions.go lines 42-46). -/
structure DocDataState where
  pageNums : List Nat
  pageTexts : List String
  deriving DecidableEq, Repr

/-- DocPositions (doc_positions.go lines 22-29); the lState back pointer is
dropped (no verified operation uses it). Exactly one of docPersist / docData
should be some; isMem panics otherwise. -/
structure DocPositions where
  inPath : String
  docIdx : Nat
  pageDpl : List (Nat × DocPageLocations)
  docPersist : Option DocPersistState
  docData : Option DocDataState
  deriving DecidableEq, Repr

/-- Reading a Go map returns the zero value for a missing key. -/
def lookupDpl (m : List (Nat × DocPageLocations)) (pageNum : Nat) : DocPageLocations :=
  (m.lookup pageNum).getD default

/-- addDocPagePersist (doc_positions.go lines 195-226): encodes the dpl with
the flatbuffers builder (`enc`, kept abstract), records the byteSpan with
the current end-of-file offset, CRC and page number, appends the frame to
the data file, writes the page text, and returns the new 0-based page
index len(spans)-1. -/
def addDocPagePersist (enc : DocPageLocations → List Nat) (d : DocPositions)
    (dp : DocPersistState) (pageNum : Nat) (dpl : DocPageLocations) (text : String) :
    Except GoErr (Nat × DocPositions) :=
  let buf := enc dpl
  let check := crc32 buf
  let offset := dp.fileBytes.length
  let span : ByteSpan := ⟨offset, buf.length, check, pageNum⟩
  let dp' : DocPersistState :=
    { spans := dp.spans ++ [span]
      fileBytes := dp.fileBytes ++ buf
      textFiles := dp.textFiles ++ [text] }
  .ok (dp'.spans.length - 1, { d with docPersist := some dp' })

/-- AddDocPage (doc_positions.go lines 181-193). pageNum = 0 panics
("pageNum = 0 should never happen"), modelled as the zeroPageNumber error,
before any state is touched. Otherwise the dpl is recorded in pageDpl and
the page is appended in the live mode; both-or-neither mode is the isMem
panic. -/
def AddDocPage (enc : DocPageLocations → List Nat) (d : DocPositions)
    (pageNum : Nat) (dpl : DocPageLocations) (text : String) :
    Except GoErr (Nat × DocPositions) :=
  if pageNum = 0 then .error .zeroPageNumber
  else
    let d' := { d with pageDpl := (pageNum, dpl) :: d.pageDpl }
    match d.docPersist, d.docData with
    | none, some dd =>
      let dd' : DocDataState :=
        { pageTexts := dd.pageTexts ++ [text]
          pageNums := dd.pageNums ++ [pageNum] }
      .ok (dd'.pageNums.length - 1, { d' with docData := some dd' })
    | some dp, none => addDocPagePersist enc d' dp pageNum dpl text
    | _, _ => .error .invalidMode

/-- readPersistedPagePositions (doc_positions.go lines 262-289): fetches the
span (a bad index is a Go slice panic), rejects PageNum = 0, seeks to the
span offset, reads Size bytes, recomputes the CRC and panics with
"bad checksum" on mismatch (modelled as the badChecksum error), otherwise
decodes the frame with ReadDocPageLocations (`dec`, kept abstract; its error
is the third component of the Go return). -/
def readPersistedPagePositions (dec : List Nat → DocPageLocations × Option GoErr)
    (dp : DocPersistState) (pageIdx : Nat) :
    Except GoErr (Nat × DocPageLocations × Option GoErr) :=
  if h : pageIdx < dp.spans.length then
    let e := dp.spans.get ⟨pageIdx, h⟩
    if e.PageNum = 0 then .ok (0, default, some .badSpan)
    else
      let buf := (dp.fileBytes.drop e.Offset).take e.Size
      if crc32 buf = e.Check then
        let r := dec buf
        .ok (e.PageNum, r.1, r.2)
      else .error .badChecksum
  else .error .indexOutOfRange

/-- ReadPagePositions (doc_positions.go lines 246-260): memory mode returns
(pageNums[pageIdx], pageDpl[pageNum]) with bounds and zero-page checks as
ordinary error returns; persistent mode delegates to
readPersistedPagePositions. -/
def ReadPagePositions (dec : List Nat → DocPageLocations × Option GoErr)
    (d : DocPositions) (pageIdx : Nat) :
    Except GoErr (Nat × DocPageLocations × Option GoErr) :=
  match d.docPersist, d.docData with
  | none, some dd =>
    if pageIdx < dd.pageNums.length then
      let pageNum := dd.pageNums.getD pageIdx 0
      if pageNum = 0 then .ok (0, default, some .noPageNum)
      else .ok (pageNum, lookupDpl d.pageDpl pageNum, none)
    else .ok (0, default, some .badPageIdx)
  | some dp, none => readPersistedPagePositions dec dp pageIdx
  | _, _ => .error .invalidMode

/-- The bytes a page read actually looks at: the span's
[Offset, Offset+Size) window of the data file. -/
def frameSlice (dp : DocPersistState) (pageIdx : Nat) : List Nat :=
  match dp.spans.get? pageIdx with
  | some e => (dp.fileBytes.drop e.Offset).take e.Size
  | none => []

/-- A sequence of AddDocPage calls, threading the document state and
collecting the returned page indices; the first error aborts
(ExtractDocPagePositionsReader stops the page loop on an AddDocPage error).
-/
def addAll (enc : DocPageLocations → List Nat) :
    DocPositions → List (Nat × DocPageLocations × String) →
    Except GoErr (List Nat × DocPositions)
  | d, [] => .ok ([], d)
  | d, (pn, dpl, text) :: rest =>
    match AddDocPage enc d pn dpl text with
    | .error e => .error e
    | .ok (idx, d') =>
      match addAll enc d' rest with
      | .error e => .error e
      | .ok (idxs, d'') => .ok (idx :: idxs, d'')

/-- A DocPositions fresh from CreatePositionsDoc in memory mode
(positions_store.go baseFields: empty docData, no docPersist). -/
def freshMemDoc (inPath : String) (docIdx : Nat) : DocPositions :=
  ⟨inPath, docIdx, [], none, some ⟨[], []⟩⟩

/-- A DocPositions fresh from CreatePositionsDoc in persistent mode
(empty data file, empty sidecar, empty page-text directory). -/
def freshPersistDoc (inPath : String) (docIdx : Nat) : DocPositions :=
  ⟨inPath, docIdx, [], some ⟨[], [], []⟩, none⟩

/-- The byteSpans a run of AddDocPage calls appends, starting at data-file
offset `base`: each span records the running offset, the frame size, its
CRC and the page number. -/
def newSpans (enc : DocPageLocations → List Nat) :
    Nat → List (Nat × DocPageLocations × String) → List ByteSpan
  | _, [] => []
  | base, (pn, dpl, _) :: rest =>
    ⟨base, (enc dpl).length, crc32 (enc dpl), pn⟩ ::
      newSpans enc (base + (enc dpl).length) rest

/-- The bytes the same run appends to the data file. -/
def newBytes (enc : DocPageLocations → List Nat) :
    List (Nat × DocPageLocations × String) → List Nat
  | [] => []
  | (_, dpl, _) :: rest => enc dpl ++ newBytes enc rest

/-! ## PositionsState (doclib/positions_store.go)

The catalog: ordered fileList plus the three derived Go maps, modelled as
functions into Option. hashDoc (memory-mode handle cache) and updateTime
(flush timer, I/O only) are dropped: no verified claim observes them. -/

/-- FileDesc (positions_store.go lines 23-27). SizeMB is a float64 the code
only stores, modelled as Int. -/
structure FileDesc where
  InPath : String
  Hash : String
  SizeMB : Int
  deriving DecidableEq, Repr

/-- PositionsState (positions_store.go lines 211-219). -/
structure PositionsState where
  root : String
  fileList : List FileDesc
  hashIndex : String → Option Nat
  indexHash : Nat → Option String
  hashPath : String → Option String

/-- addFile (positions_store.go lines 462-479): a hashIndex hit returns the
existing index and first-submission path with exists=true and no mutation;
otherwise the FileDesc is appended and the three maps are extended with the
new index len(fileList)-1. The opportunistic Flush only writes to disk and
is dropped. -/
def addFile (s : PositionsState) (fd : FileDesc) :
    (Nat × String × Bool) × PositionsState :=
  match s.hashIndex fd.Hash with
  | some docIdx => ((docIdx, (s.hashPath fd.Hash).getD "", true), s)
  | none =>
    let fileList' := s.fileList ++ [fd]
    let docIdx := fileList'.length - 1
    ((docIdx, fd.InPath, false),
     { s with
        fileList := fileList'
        hashIndex := fun h => if h = fd.Hash then some docIdx else s.hashIndex h
        indexHash := fun i => if i = docIdx then some fd.Hash else s.indexHash i
        hashPath := fun h => if h = fd.Hash then some fd.InPath else s.hashPath h })

/-- baseFields (positions_store.go lines 622-655): range-checks docIdx and
builds the DocPositions for the store's mode (memory iff root = ""). -/
def baseFields (s : PositionsState) (docIdx : Nat) : Except GoErr DocPositions :=
  if h : docIdx < s.fileList.length then
    .ok { inPath := s.fileList[docIdx].InPath
          docIdx := docIdx
          pageDpl := []
          docPersist := if s.root = "" then none else some ⟨[], [], []⟩
          docData := if s.root = "" then some ⟨[], []⟩ else none }
  else .error .rangeErr

/-- CreatePositionsDoc (positions_store.go lines 571-600): addFile, then on
exists=true the duplicate-PDF error; otherwise baseFields (directory and
data-file creation always succeed in the model). -/
def CreatePositionsDoc (s : PositionsState) (fd : FileDesc) :
    Except GoErr DocPositions × PositionsState :=
  match addFile s fd with
  | ((_, _, true), s') => (.error .duplicatePdf, s')
  | ((docIdx, _, false), s') =>
    match baseFields s' docIdx with
    | .error e => (.error e, s')
    | .ok lDoc => (.ok lDoc, s')

/-- The map-building loop of OpenPositionsState (positions_store.go lines
363-367): for i, hip in fileList, set the three maps at hip. -/
def addMapsLoop : PositionsState → List FileDesc → Nat → PositionsState
  | s, [], _ => s
  | s, fd :: rest, i =>
    addMapsLoop
      { s with
        hashIndex := fun h => if h = fd.Hash then some i else s.hashIndex h
        indexHash := fun k => if k = i then some fd.Hash else s.indexHash k
        hashPath := fun h => if h = fd.Hash then some fd.InPath else s.hashPath h }
      rest (i + 1)

/-- OpenPositionsState (positions_store.go lines 342-373): memory mode
(root = "") starts empty; persistent mode takes the fileList loaded from
file_list.json (`loaded`) and derives the three maps. -/
def OpenPositionsState (root : String) (loaded : List FileDesc) : PositionsState :=
  if root = "" then ⟨root, [], fun _ => none, fun _ => none, fun _ => none⟩
  else addMapsLoop ⟨root, loaded, fun _ => none, fun _ => none, fun _ => none⟩ loaded 0

/-- addFile applied in sequence (each CreatePositionsDoc call mutates the
catalog through addFile only). -/
def applyAddFiles (s : PositionsState) : List FileDesc → PositionsState
  | [] => s
  | fd :: rest => applyAddFiles (addFile s fd).2 rest

/-- The derived maps agree with the first k catalog entries and mention
nothing else: hashIndex inverts the Hash of entry i, indexHash returns it,
hashPath returns the entry's first-submission path, and both maps are
defined only below k. -/
def ConsistentUpTo (s : PositionsState) (k : Nat) : Prop :=
  k ≤ s.fileList.length ∧
  (∀ i (hl : i < s.fileList.length), i < k →
    s.hashIndex s.fileList[i].Hash = some i ∧
    s.indexHash i = some s.fileList[i].Hash ∧
    s.hashPath s.fileList[i].Hash = some s.fileList[i].InPath) ∧
  (∀ h i, s.hashIndex h = some i →
    i < k ∧ ∃ hl : i < s.fileList.length, s.fileList[i].Hash = h) ∧
  (∀ i h, s.indexHash i = some h → i < k)

/-- The three maps are consistent with the whole ordered fileList. -/
def Consistent (s : PositionsState) : Prop :=
  ConsistentUpTo s s.fileList.length

/-! ## Concrete inputs used by counterexamples and witnesses -/

/-- A concrete record whose single location has a nonzero End field. -/
def dplEx : DocPageLocations :=
  ⟨3, 1, [⟨6, 11, 10, 100, 50, 120⟩]⟩

/-- An uncorrupted two-page document: page frames [7] and [9], spans with
matching CRCs. -/
def dpGood : DocPersistState :=
  ⟨[⟨0, 1, crc32 [7], 1⟩, ⟨1, 1, crc32 [9], 2⟩], [7, 9], ["a", "b"]⟩

/-- dpGood with the byte of page 0's frame flipped from 7 to 8. -/
def dpBad : DocPersistState :=
  ⟨[⟨0, 1, crc32 [7], 1⟩, ⟨1, 1, crc32 [9], 2⟩], [8, 9], ["a", "b"]⟩

/-- A trivial decoder instance for the witness. -/
def decW : List Nat → DocPageLocations × Option GoErr := fun _ => (default, none)

/-- Concrete inputs for the C7 witness: two pages, page numbers 1 and 2. -/
def inputsW : List (Nat × DocPageLocations × String) :=
  [(1, dplEx, "a"), (2, default, "b")]

/-- A trivial encoder instance for the witness. -/
def encW : DocPageLocations → List Nat := fun _ => [7]

/-- Submissions for the store witnesses: two distinct files then a
duplicate of the first under another path. -/
def fdW : FileDesc := ⟨"a.pdf", "h1", 0⟩

def fdW2 : FileDesc := ⟨"b.pdf", "h2", 0⟩

def fdW3 : FileDesc := ⟨"c.pdf", "h1", 0⟩

/-- Three runs with strictly ascending starts 0, 10, 20; the middle one has
a bounding box larger than both its neighbours. -/
def psEx : List TextLocation :=
  [⟨0, 0, 0, 0, 1, 1⟩, ⟨10, 0, -5, -5, 20, 20⟩, ⟨20, 0, 2, 2, 3, 3⟩]

/-- The four-character text whose offset 2 points at a newline. -/
def txtEx : List Char := ['a', '\n', '\n', 'b']

/-- A text whose offset 0 is an ordinary character. -/
def txtW : List Char := ['H', 'i', '\n', 'x']

/-! ## Helper lemmas about the sort.Search model -/

theorem searchFrom_le (f : Nat → Bool) : ∀ k i, searchFrom f k i ≤ i + k := by
  intro k
  induction k with
  | zero => intro i; simp [searchFrom]
  | succ k ih =>
    intro i
    simp only [searchFrom]
    split
    · omega
    · have := ih (i + 1); omega

theorem searchFrom_found (f : Nat → Bool) :
    ∀ k i, searchFrom f k i < i + k → f (searchFrom f k i) = true := by
  intro k
  induction k with
  | zero => intro i h; simp [searchFrom] at h
  | succ k ih =>
    intro i
    simp only [searchFrom]
    split
    · intro _; assumption
    · intro h; exact ih (i + 1) (by omega)

theorem searchFrom_min (f : Nat → Bool) :
    ∀ k i m, i ≤ m → m < searchFrom f k i → f m = false := by
  intro k
  induction k with
  | zero =>
    intro i m h1 h2
    simp [searchFrom] at h2; omega
  | succ k ih =>
    intro i m h1 h2
    simp only [searchFrom] at h2
    by_cases hf : f i
    · simp [hf] at h2; omega
    · simp [hf] at h2
      rcases Nat.eq_or_lt_of_le h1 with rfl | hlt
      · simpa using hf
      · exact ih (i + 1) m hlt h2

theorem searchFrom_lt_of_exists (f : Nat → Bool) :
    ∀ k i m, i ≤ m → m < i + k → f m = true → searchFrom f k i < i + k := by
  intro k i m h1 h2 h3
  by_contra h
  push_neg at h
  have hle := searchFrom_le f k i
  have : searchFrom f k i = i + k := Nat.le_antisymm hle h
  have := searchFrom_min f k i m h1 (by omega)
  simp [h3] at this

/-! ## Helper lemmas about Filter, AddDocPage and the store -/

theorem filterLoop_sublist (maxResultsPerFile : Int) :
    ∀ (ms : List PdfMatch) (counts : String → Nat),
      (filterLoop maxResultsPerFile counts ms).Sublist ms := by
  intro ms
  induction ms with
  | nil => intro counts; simp [filterLoop]
  | cons m ms ih =>
    intro counts
    simp only [filterLoop]
    split
    · exact List.Sublist.cons₂ m (ih _)
    · exact List.Sublist.cons m (ih _)

theorem newSpans_length (enc : DocPageLocations → List Nat) :
    ∀ (inputs : List (Nat × DocPageLocations × String)) (base : Nat),
      (newSpans enc base inputs).length = inputs.length := by
  intro inputs
  induction inputs with
  | nil => intro base; rfl
  | cons x rest ih =>
    intro base
    obtain ⟨pn, dpl, text⟩ := x
    simp [newSpans, ih]

/-- Each span appended over prefix `pre` points at exactly its own frame
bytes inside `pre ++ newBytes enc inputs`, and carries the page number,
size and CRC of that frame. -/
theorem newSpans_frame (enc : DocPageLocations → List Nat) :
    ∀ (inputs : List (Nat × DocPageLocations × String)) (pre : List Nat)
      (j : Nat) (hj : j < inputs.length),
      ∃ e, (newSpans enc pre.length inputs).get? j = some e ∧
        e.PageNum = (inputs.get ⟨j, hj⟩).1 ∧
        e.Size = (enc (inputs.get ⟨j, hj⟩).2.1).length ∧
        e.Check = crc32 (enc (inputs.get ⟨j, hj⟩).2.1) ∧
        ((pre ++ newBytes enc inputs).drop e.Offset).take e.Size =
          enc (inputs.get ⟨j, hj⟩).2.1 := by
  intro inputs
  induction inputs with
  | nil => intro pre j hj; simp at hj
  | cons x rest ih =>
    intro pre j hj
    obtain ⟨pn, dpl, text⟩ := x
    cases j with
    | zero =>
      refine ⟨⟨pre.length, (enc dpl).length, crc32 (enc dpl), pn⟩, rfl, rfl, rfl, rfl, ?_⟩
      simp only [newBytes]
      rw [List.drop_left, List.take_left]
      rfl
    | succ k =>
      have hk : k < rest.length := by simpa using hj
      have hpre : (pre ++ enc dpl).length = pre.length + (enc dpl).length := by
        simp
      obtain ⟨e, hget, hpn, hsize, hcheck, hslice⟩ := ih (pre ++ enc dpl) k hk
      rw [hpre] at hget
      refine ⟨e, ?_, hpn, hsize, hcheck, ?_⟩
      · simpa [newSpans] using hget
      · simp only [newBytes]
        rw [← List.append_assoc]
        exact hslice

/-- addAll in memory mode: appends the page numbers and texts in order and
returns the consecutive indices starting at the current page count. -/
theorem addAll_mem (enc : DocPageLocations → List Nat) :
    ∀ (inputs : List (Nat × DocPageLocations × String)) (d : DocPositions)
      (dd : DocDataState),
      d.docPersist = none → d.docData = some dd → (∀ x ∈ inputs, x.1 ≠ 0) →
      ∃ d' dd',
        addAll enc d inputs = .ok (List.range' dd.pageNums.length inputs.length, d') ∧
        d'.docPersist = none ∧ d'.docData = some dd' ∧
        dd'.pageNums = dd.pageNums ++ inputs.map (fun x => x.1) := by
  intro inputs
  induction inputs with
  | nil =>
    intro d dd h1 h2 _
    exact ⟨d, dd, by simp [addAll], h1, h2, by simp⟩
  | cons x rest ih =>
    intro d dd h1 h2 hnz
    obtain ⟨pn, dpl, text⟩ := x
    obtain ⟨ip, di, pdpl, dpers, ddata⟩ := d
    simp only at h1 h2
    subst h1; subst h2
    have hpn : pn ≠ 0 := hnz _ (List.mem_cons_self _ _)
    have hstep : AddDocPage enc ⟨ip, di, pdpl, none, some dd⟩ pn dpl text =
        .ok (dd.pageNums.length,
          ⟨ip, di, (pn, dpl) :: pdpl, none,
            some ⟨dd.pageNums ++ [pn], dd.pageTexts ++ [text]⟩⟩) := by
      simp [AddDocPage, hpn]
    obtain ⟨d', dd', hrest, h1', h2', h3'⟩ :=
      ih ⟨ip, di, (pn, dpl) :: pdpl, none,
            some ⟨dd.pageNums ++ [pn], dd.pageTexts ++ [text]⟩⟩
        ⟨dd.pageNums ++ [pn], dd.pageTexts ++ [text]⟩ rfl rfl
        (fun y hy => hnz y (List.mem_cons_of_mem _ hy))
    refine ⟨d', dd', ?_, h1', h2', ?_⟩
    · simp only [addAll, hstep]
      rw [hrest]
      simp [List.range'_succ]
    · rw [h3']
      simp

/-- addAll in persistent mode: appends the spans and frame bytes in order
and returns the consecutive indices starting at the current span count. -/
theorem addAll_persist (enc : DocPageLocations → List Nat) :
    ∀ (inputs : List (Nat × DocPageLocations × String)) (d : DocPositions)
      (dp : DocPersistState),
      d.docPersist = some dp → d.docData = none → (∀ x ∈ inputs, x.1 ≠ 0) →
      ∃ d' dp',
        addAll enc d inputs = .ok (List.range' dp.spans.length inputs.length, d') ∧
        d'.docPersist = some dp' ∧ d'.docData = none ∧
        dp'.spans = dp.spans ++ newSpans enc dp.fileBytes.length inputs ∧
        dp'.fileBytes = dp.fileBytes ++ newBytes enc inputs := by
  intro inputs
  induction inputs with
  | nil =>
    intro d dp h1 h2 _
    exact ⟨d, dp, by simp [addAll], h1, h2, by simp [newSpans], by simp [newBytes]⟩
  | cons x rest ih =>
    intro d dp h1 h2 hnz
    obtain ⟨pn, dpl, text⟩ := x
    obtain ⟨ip, di, pdpl, dpers, ddata⟩ := d
    simp only at h1 h2
    subst h1; subst h2
    have hpn : pn ≠ 0 := hnz _ (List.mem_cons_self _ _)
    have hstep : AddDocPage enc ⟨ip, di, pdpl, some dp, none⟩ pn dpl text =
        .ok (dp.spans.length,
          ⟨ip, di, (pn, dpl) :: pdpl,
            some ⟨dp.spans ++ [⟨dp.fileBytes.length, (enc dpl).length,
                    crc32 (enc dpl), pn⟩],
                  dp.fileBytes ++ enc dpl, dp.textFiles ++ [text]⟩, none⟩) := by
      simp [AddDocPage, addDocPagePersist, hpn]
    obtain ⟨d', dp', hrest, h1', h2', h3', h4'⟩ :=
      ih ⟨ip, di, (pn, dpl) :: pdpl,
            some ⟨dp.spans ++ [⟨dp.fileBytes.length, (enc dpl).length,
                    crc32 (enc dpl), pn⟩],
                  dp.fileBytes ++ enc dpl, dp.textFiles ++ [text]⟩, none⟩
        ⟨dp.spans ++ [⟨dp.fileBytes.length, (enc dpl).length,
                    crc32 (enc dpl), pn⟩],
                  dp.fileBytes ++ enc dpl, dp.textFiles ++ [text]⟩ rfl rfl
        (fun y hy => hnz y (List.mem_cons_of_mem _ hy))
    refine ⟨d', dp', ?_, h1', h2', ?_, ?_⟩
    · simp only [addAll, hstep]
      rw [hrest]
      simp [List.range'_succ]
    · rw [h3']
      simp [newSpans]
    · rw [h4']
      simp [newBytes]

/-- addFile preserves catalog consistency, and never rebinds an
already-assigned document index. -/
theorem addFile_preserves (s : PositionsState) (fd : FileDesc)
    (hc : Consistent s) :
    Consistent (addFile s fd).2 ∧
    ∀ i h, s.indexHash i = some h → (addFile s fd).2.indexHash i = some h := by
  obtain ⟨root, fl, hI, iH, hP⟩ := s
  obtain ⟨hk, h1, h4, h5⟩ := hc
  dsimp only at h1 h4 h5
  cases hmatch : hI fd.Hash with
  | some docIdx =>
    simp only [addFile, hmatch]
    exact ⟨⟨hk, h1, h4, h5⟩, fun i h hh => hh⟩
  | none =>
    have hne_old : ∀ i (hl : i < fl.length), fl[i].Hash ≠ fd.Hash := by
      intro i hl heq
      have hidx := (h1 i hl hl).1
      rw [heq, hmatch] at hidx
      exact Option.noConfusion hidx
    simp only [addFile, hmatch]
    unfold Consistent ConsistentUpTo
    dsimp only
    have hm : (fl ++ [fd]).length - 1 = fl.length := by simp
    simp only [hm]
    have hlen : (fl ++ [fd]).length = fl.length + 1 := by simp
    refine ⟨⟨Nat.le_refl _, ?_, ?_, ?_⟩, ?_⟩
    · intro i hl hik
      by_cases hin : i < fl.length
      · have hget : (fl ++ [fd])[i] = fl[i] :=
          List.getElem_append_left hin
        have hold := h1 i hin hin
        have hne := hne_old i hin
        have hneidx : i ≠ fl.length := Nat.ne_of_lt hin
        rw [hget]
        exact ⟨by rw [if_neg hne]; exact hold.1,
               by rw [if_neg hneidx]; exact hold.2.1,
               by rw [if_neg hne]; exact hold.2.2⟩
      · have hieq : i = fl.length := by omega
        subst hieq
        have hget : (fl ++ [fd])[fl.length] = fd :=
          List.getElem_concat_length _ _ _ rfl _
        rw [hget]
        simp
    · intro h i hhi
      by_cases hfd : h = fd.Hash
      · subst hfd
        rw [if_pos rfl] at hhi
        have hieq := Option.some.inj hhi
        subst hieq
        have hfllt : fl.length < (fl ++ [fd]).length := by omega
        refine ⟨by omega, ⟨hfllt, ?_⟩⟩
        exact congrArg FileDesc.Hash (List.getElem_concat_length _ _ _ rfl _)
      · rw [if_neg hfd] at hhi
        obtain ⟨hik, hl, hhash⟩ := h4 h i hhi
        refine ⟨by omega, ⟨by omega, ?_⟩⟩
        rw [List.getElem_append_left hl]
        exact hhash
    · intro i h hih
      by_cases hidx : i = fl.length
      · omega
      · rw [if_neg hidx] at hih
        have := h5 i h hih
        omega
    · intro i h hh
      have hlt := h5 i h hh
      have hidx : i ≠ fl.length := Nat.ne_of_lt hlt
      rw [if_neg hidx]
      exact hh

/-- applyAddFiles preserves consistency and index bindings. -/
theorem applyAddFiles_preserves :
    ∀ (fds : List FileDesc) (s : PositionsState), Consistent s →
      Consistent (applyAddFiles s fds) ∧
      ∀ i h, s.indexHash i = some h →
        (applyAddFiles s fds).indexHash i = some h := by
  intro fds
  induction fds with
  | nil => intro s hc; exact ⟨hc, fun _ _ hh => hh⟩
  | cons fd rest ih =>
    intro s hc
    have hstep := addFile_preserves s fd hc
    have hrest := ih (addFile s fd).2 hstep.1
    exact ⟨hrest.1, fun i h hh => hrest.2 i h (hstep.2 i h hh)⟩

/-- The OpenPositionsState map loop establishes consistency when the loaded
fileList has pairwise distinct hashes. -/
theorem addMapsLoop_consistent :
    ∀ (rest pre : List FileDesc) (s : PositionsState),
      s.fileList = pre ++ rest →
      (s.fileList.map FileDesc.Hash).Nodup →
      ConsistentUpTo s pre.length →
      Consistent (addMapsLoop s rest pre.length) := by
  intro rest
  induction rest with
  | nil =>
    intro pre s hfl hnd hup
    simp only [addMapsLoop]
    unfold Consistent
    have hlen : s.fileList.length = pre.length := by rw [hfl]; simp
    rw [hlen]
    exact hup
  | cons fd rest' ih =>
    intro pre s hfl hnd hup
    obtain ⟨root, fl, hI, iH, hP⟩ := s
    dsimp only at hfl hnd
    subst hfl
    obtain ⟨hk, h1, h4, h5⟩ := hup
    dsimp only at hk h1 h4 h5
    have hlp : pre.length < (pre ++ fd :: rest').length := by simp
    have hgetp : (pre ++ fd :: rest')[pre.length] = fd := by
      rw [List.getElem_append_right (Nat.le_refl _)]
      simp
    have hmlen : ∀ j, j < (pre ++ fd :: rest').length →
        j < ((pre ++ fd :: rest').map FileDesc.Hash).length := by
      intro j hj; simpa using hj
    have hashNe : ∀ i (hl : i < (pre ++ fd :: rest').length), i ≠ pre.length →
        (pre ++ fd :: rest')[i].Hash ≠ fd.Hash := by
      intro i hl hne heq
      apply hne
      have hmi : i < ((pre ++ fd :: rest').map FileDesc.Hash).length := hmlen i hl
      have hmp : pre.length < ((pre ++ fd :: rest').map FileDesc.Hash).length :=
        hmlen _ hlp
      have hmap : ((pre ++ fd :: rest').map FileDesc.Hash)[i] =
          ((pre ++ fd :: rest').map FileDesc.Hash)[pre.length] := by
        simp only [List.getElem_map]
        rw [heq, hgetp]
      exact (List.Nodup.getElem_inj_iff hnd).1 hmap
    simp only [addMapsLoop]
    have hplen : (pre ++ [fd]).length = pre.length + 1 := by simp
    have hup₂ : ConsistentUpTo
        ⟨root, pre ++ fd :: rest',
          fun h => if h = fd.Hash then some pre.length else hI h,
          fun k => if k = pre.length then some fd.Hash else iH k,
          fun h => if h = fd.Hash then some fd.InPath else hP h⟩
        (pre.length + 1) := by
      unfold ConsistentUpTo
      dsimp only
      refine ⟨by simp, ?_, ?_, ?_⟩
      · intro i hl hik
        by_cases hin : i < pre.length
        · have hold := h1 i hl hin
          have hne := hashNe i hl (Nat.ne_of_lt hin)
          have hneidx : i ≠ pre.length := Nat.ne_of_lt hin
          exact ⟨by rw [if_neg hne]; exact hold.1,
                 by rw [if_neg hneidx]; exact hold.2.1,
                 by rw [if_neg hne]; exact hold.2.2⟩
        · have hieq : i = pre.length := by omega
          subst hieq
          rw [hgetp]
          simp
      · intro h i hhi
        by_cases hfd : h = fd.Hash
        · subst hfd
          rw [if_pos rfl] at hhi
          have hieq := Option.some.inj hhi
          subst hieq
          refine ⟨by omega, ⟨hlp, ?_⟩⟩
          rw [hgetp]
        · rw [if_neg hfd] at hhi
          obtain ⟨hik, hl, hhash⟩ := h4 h i hhi
          exact ⟨by omega, ⟨hl, hhash⟩⟩
      · intro i h hih
        by_cases hidx : i = pre.length
        · omega
        · rw [if_neg hidx] at hih
          have := h5 i h hih
          omega
    have hcall := ih (pre ++ [fd])
      ⟨root, pre ++ fd :: rest',
        fun h => if h = fd.Hash then some pre.length else hI h,
        fun k => if k = pre.length then some fd.Hash else iH k,
        fun h => if h = fd.Hash then some fd.InPath else hP h⟩
      (by simp) hnd (by rw [hplen]; exact hup₂)
    rw [hplen] at hcall
    exact hcall

/-- An opened store is consistent: empty in memory mode, map-loop built in
persistent mode (given the spec invariant that stored hashes are unique). -/
theorem open_consistent (root : String) (loaded : List FileDesc)
    (hnd : (loaded.map FileDesc.Hash).Nodup) :
    Consistent (OpenPositionsState root loaded) := by
  unfold OpenPositionsState
  split
  · refine ⟨Nat.le_refl _, ?_, ?_, ?_⟩
    · intro i hl
      simp at hl
    · intro h i hhi
      exact Option.noConfusion hhi
    · intro i h hih
      exact Option.noConfusion hih
  · exact addMapsLoop_consistent loaded [] _ rfl hnd
      ⟨Nat.zero_le _, fun i hl hik => absurd hik (by simp),
       fun h i hhi => Option.noConfusion hhi,
       fun i h hih => Option.noConfusion hih⟩

/-! ## Helper lemmas about line endings and slices -/

theorem nlPositions_ge : ∀ (cs : List Char) (a p : Nat),
    p ∈ nlPositions cs a → a ≤ p := by
  intro cs
  induction cs with
  | nil => intro a p hp; simp [nlPositions] at hp
  | cons c cs ih =>
    intro a p hp
    simp only [nlPositions] at hp
    by_cases hc : c = '\n'
    · rw [if_pos hc] at hp
      rcases List.mem_cons.1 hp with rfl | hp'
      · exact Nat.le_refl _
      · exact Nat.le_trans (Nat.le_succ a) (ih (a + 1) p hp')
    · rw [if_neg hc] at hp
      exact Nat.le_trans (Nat.le_succ a) (ih (a + 1) p hp)

theorem nlPositions_pairwise : ∀ (cs : List Char) (a : Nat),
    List.Pairwise (fun p q => p < q) (nlPositions cs a) := by
  intro cs
  induction cs with
  | nil => intro a; simp [nlPositions]
  | cons c cs ih =>
    intro a
    simp only [nlPositions]
    by_cases hc : c = '\n'
    · rw [if_pos hc]
      exact List.Pairwise.cons
        (fun p hp => Nat.lt_of_lt_of_le (Nat.lt_succ_self a) (nlPositions_ge cs (a + 1) p hp))
        (ih (a + 1))
    · rw [if_neg hc]
      exact ih (a + 1)

theorem nlPositions_complete : ∀ (cs : List Char) (a j : Nat),
    cs[j]? = some '\n' → a + j ∈ nlPositions cs a := by
  intro cs
  induction cs with
  | nil => intro a j h; simp at h
  | cons c cs ih =>
    intro a j h
    cases j with
    | zero =>
      simp at h
      simp [nlPositions, h]
    | succ k =>
      rw [List.getElem?_cons_succ] at h
      have hmem := ih (a + 1) k h
      have harith : a + (k + 1) = (a + 1) + k := by omega
      simp only [nlPositions]
      by_cases hc : c = '\n'
      · rw [if_pos hc]
        apply List.mem_cons_of_mem
        rw [harith]
        exact hmem
      · rw [if_neg hc]
        rw [harith]
        exact hmem

/-- In a strictly increasing list, every member below the k-th element sits
at an index before k. -/
theorem pairwise_lt_between (l : List Nat)
    (hpw : List.Pairwise (fun p q => p < q) l) :
    ∀ (k : Nat) (hk : k < l.length) (p : Nat), p ∈ l → p < l[k] →
      ∃ m, ∃ hm : m < l.length, m < k ∧ l[m] = p := by
  intro k hk p hp hlt
  obtain ⟨m, hm, hmeq⟩ := List.getElem_of_mem hp
  refine ⟨m, hm, ?_, hmeq⟩
  by_contra hge
  push_neg at hge
  rcases Nat.eq_or_lt_of_le hge with heq | hkm
  · subst heq
    rw [hmeq] at hlt
    exact Nat.lt_irrefl _ hlt
  · have hmono := (List.pairwise_iff_getElem.1 hpw) k m hk hm hkm
    rw [hmeq] at hmono
    omega

/-- The k-th element of a slice is the (a+k)-th element of the base list. -/
theorem slice_getElem? (l : List Char) (a b k : Nat) (hk : k < b) :
    ((l.drop a).take b)[k]? = l[a + k]? := by
  rw [List.getElem?_take_of_lt hk, List.getElem?_drop]

/-! ### Claim C1: pages processed by the extraction driver -/

/-- C1, evaluation at the failing inputs: with every page present and every
callback succeeding, a 3-page document has its callback invoked on pages 1
and 2 only, and a 1-page document has it invoked on no page at all — the
last page N is never processed, contradicting both the claim and the
function's own doc comment ("runs processPage on every page"). -/
theorem C1_code_bug_eval :
    (processPDFPages (fun _ => none) (fun _ => none) 3).1 = [1, 2] ∧
    (processPDFPages (fun _ => none) (fun _ => none) 1).1 = [] ∧
    3 ∉ (processPDFPages (fun _ => none) (fun _ => none) 3).1 := by
  decide

/-! ### Claim C2: frame codec round trip -/

/-- C2, counterexample: decoding the encoding of `dplEx` does not give back
`dplEx`: the End field of its location (11) reads back as 0. -/
theorem C2_counterexample :
    ReadDocPageLocations (MakeDocPageLocations dplEx) ≠ dplEx := by
  decide

/-- C2, amended: decoding the encoding of any DocPageLocations returns it
with Doc, Page and every location's Start, Llx, Lly, Urx, Ury preserved,
and every location's End field replaced by 0 (the wire format carries no
end offset and getTextLocation materialises 0 on read). -/
theorem C2_roundtrip (dpl : DocPageLocations) :
    ReadDocPageLocations (MakeDocPageLocations dpl) =
      ⟨dpl.Doc, dpl.Page, dpl.Locations.map (fun l => { l with End := 0 })⟩ := by
  unfold ReadDocPageLocations MakeDocPageLocations
  simp only [List.map_map]
  rfl

/-! ### Claim C3: rectangle resolution -/

/-- C3, counterexample: for the strictly sorted psEx and the in-range match
range [0, 15), both binary searches succeed, yet the run at Start = 10 —
inside [0, 15) and strictly between the two runs the searches select — has
a bounding box not contained in the returned rectangle. -/
theorem C3_counterexample :
    psEx.Pairwise (fun a b => a.Start < b.Start) ∧ (0 : Nat) ≤ 15 ∧
    (getPositionIndex psEx 15).2 = true ∧ (getPositionIndex psEx 0).2 = true ∧
    ¬ (∀ l ∈ psEx, l.Start < 15 → containsLoc (GetPosition psEx 0 15) l) := by
  decide

/-- C3, amended: under the claim's hypotheses (strictly ascending starts,
s ≤ e, both binary searches in range) the returned rectangle contains the
bounding boxes of the two runs the binary searches select — the first run
with Start ≥ e and the first run with Start ≥ s — but not necessarily those
of runs strictly between them. -/
theorem C3_rect_contains_selected (positions : List TextLocation) (s e : Nat)
    (hsorted : positions.Pairwise (fun a b => a.Start < b.Start))
    (hse : s ≤ e)
    (h0 : (getPositionIndex positions e).2 = true)
    (h1 : (getPositionIndex positions s).2 = true) :
    containsLoc (GetPosition positions s e)
      (positions.getD (getPositionIndex positions e).1 default) ∧
    containsLoc (GetPosition positions s e)
      (positions.getD (getPositionIndex positions s).1 default) := by
  unfold GetPosition
  simp only [h0, h1, Bool.and_self, if_true, containsLoc]
  exact ⟨⟨min_le_left _ _, min_le_left _ _, le_max_left _ _, le_max_left _ _⟩,
         ⟨min_le_right _ _, min_le_right _ _, le_max_right _ _, le_max_right _ _⟩⟩

/-- C3 witness: the amended theorem instantiated at psEx with range
[0, 15). -/
theorem C3_rect_contains_selected_witness :
    containsLoc (GetPosition psEx 0 15)
      (psEx.getD (getPositionIndex psEx 15).1 default) ∧
    containsLoc (GetPosition psEx 0 15)
      (psEx.getD (getPositionIndex psEx 0).1 default) :=
  C3_rect_contains_selected psEx 0 15 (by decide) (by decide) (by decide) (by decide)

/-! ### Claim C4: add_page with page_num = 0 -/

/-- C4: for any document in any mode, AddDocPage with pageNum = 0 fails with
the zeroPageNumber error (the Go panic "pageNum = 0 should never happen",
raised before any mutation) and consequently adds no page: no updated state
is produced at all. -/
theorem C4_zero_page_number (enc : DocPageLocations → List Nat)
    (d : DocPositions) (dpl : DocPageLocations) (text : String) :
    AddDocPage enc d 0 dpl text = .error .zeroPageNumber := by
  rfl

/-! ### Claim C5: checksum mismatch on a persisted page -/

/-- C5: (1) when the stored frame bytes of a page do not match the CRC-32
recorded in its byteSpan, reading that page fails with badChecksum (the Go
panic "bad checksum"); (2) a page read is a function of the span table and
of that page's own byte window only, so corrupting one page's frame leaves
reads of every other page (whose window is untouched) unchanged. -/
theorem C5_bad_checksum :
    (∀ (dec : List Nat → DocPageLocations × Option GoErr) (dp : DocPersistState)
        (pageIdx : Nat) (h : pageIdx < dp.spans.length),
      (dp.spans.get ⟨pageIdx, h⟩).PageNum ≠ 0 →
      crc32 (frameSlice dp pageIdx) ≠ (dp.spans.get ⟨pageIdx, h⟩).Check →
      readPersistedPagePositions dec dp pageIdx = .error .badChecksum) ∧
    (∀ (dec : List Nat → DocPageLocations × Option GoErr) (dp dp' : DocPersistState)
        (pageIdx : Nat),
      dp.spans = dp'.spans →
      frameSlice dp pageIdx = frameSlice dp' pageIdx →
      readPersistedPagePositions dec dp pageIdx =
        readPersistedPagePositions dec dp' pageIdx) := by
  constructor
  · intro dec dp pageIdx h hpn hcrc
    have hg : dp.spans.get? pageIdx = some (dp.spans.get ⟨pageIdx, h⟩) :=
      List.get?_eq_get h
    have hfs : frameSlice dp pageIdx =
        (dp.fileBytes.drop (dp.spans.get ⟨pageIdx, h⟩).Offset).take
          (dp.spans.get ⟨pageIdx, h⟩).Size := by
      unfold frameSlice
      rw [hg]
    rw [hfs] at hcrc
    unfold readPersistedPagePositions
    rw [dif_pos h, if_neg hpn, if_neg hcrc]
  · intro dec dp dp' pageIdx hs hfs
    obtain ⟨spans, fb, tf⟩ := dp
    obtain ⟨spans', fb', tf'⟩ := dp'
    simp only at hs
    subst hs
    by_cases h : pageIdx < spans.length
    · have hg : spans.get? pageIdx = some (spans.get ⟨pageIdx, h⟩) :=
        List.get?_eq_get h
      unfold frameSlice at hfs
      simp only [hg] at hfs
      unfold readPersistedPagePositions
      rw [dif_pos h, dif_pos h]
      simp only at hfs ⊢
      rw [hfs]
    · unfold readPersistedPagePositions
      rw [dif_neg h, dif_neg h]

/-- C5 witness: on the corrupted document, reading page 0 fails with
badChecksum while reading page 1 gives exactly what it gives on the intact
document. -/
theorem C5_bad_checksum_witness :
    readPersistedPagePositions decW dpBad 0 = .error .badChecksum ∧
    readPersistedPagePositions decW dpBad 1 =
      readPersistedPagePositions decW dpGood 1 :=
  ⟨C5_bad_checksum.1 decW dpBad 0 (by decide) (by decide) (by decide),
   C5_bad_checksum.2 decW dpBad dpGood 1 (by decide) (by decide)⟩

/-! ### Claim C6: duplicate rejection -/

/-- C6: on a consistent store, CreatePositionsDoc for a FileDesc whose
content hash already occurs in the catalog fails with the duplicate-PDF
error and leaves the store untouched — in particular Len (the catalog
length) is unchanged. -/
theorem C6_duplicate_rejection (s : PositionsState) (fd : FileDesc)
    (hc : Consistent s)
    (hdup : ∃ i, ∃ hl : i < s.fileList.length, s.fileList[i].Hash = fd.Hash) :
    (CreatePositionsDoc s fd).1 = .error .duplicatePdf ∧
    (CreatePositionsDoc s fd).2 = s ∧
    (CreatePositionsDoc s fd).2.fileList.length = s.fileList.length := by
  obtain ⟨i, hl, hhash⟩ := hdup
  obtain ⟨hk, h1, h4, h5⟩ := hc
  have hidx : s.hashIndex fd.Hash = some i := by
    have := (h1 i hl hl).1
    rw [hhash] at this
    exact this
  refine ⟨?_, ?_, ?_⟩ <;> simp [CreatePositionsDoc, addFile, hidx]

/-- C6 witness: a store holding fdW and fdW2 rejects fdW3 (same hash as
fdW, different path) without growing. -/
theorem C6_duplicate_rejection_witness :
    (CreatePositionsDoc (applyAddFiles (OpenPositionsState "" []) [fdW, fdW2])
        fdW3).1 = .error .duplicatePdf ∧
    (CreatePositionsDoc (applyAddFiles (OpenPositionsState "" []) [fdW, fdW2])
        fdW3).2 = applyAddFiles (OpenPositionsState "" []) [fdW, fdW2] ∧
    (CreatePositionsDoc (applyAddFiles (OpenPositionsState "" []) [fdW, fdW2])
        fdW3).2.fileList.length =
      (applyAddFiles (OpenPositionsState "" []) [fdW, fdW2]).fileList.length :=
  C6_duplicate_rejection _ fdW3
    (applyAddFiles_preserves [fdW, fdW2] _ (open_consistent "" [] (by decide))).1
    ⟨0, by decide, by decide⟩

/-! ### Claim C7: index monotonicity of AddDocPage -/

/-- C7: on a freshly created document, in memory mode as well as in
persistent mode, N successful AddDocPage calls return the page indices
0, 1, ..., N-1 in call order, and ReadPagePositions at index j returns
verbatim the page number passed to the j-th call. -/
theorem C7_index_monotonicity (enc : DocPageLocations → List Nat)
    (dec : List Nat → DocPageLocations × Option GoErr)
    (inPath : String) (docIdx : Nat)
    (inputs : List (Nat × DocPageLocations × String))
    (hnz : ∀ x ∈ inputs, x.1 ≠ 0) :
    (∃ dm, addAll enc (freshMemDoc inPath docIdx) inputs =
        .ok (List.range inputs.length, dm) ∧
      ∀ j (hj : j < inputs.length), ∃ rest,
        ReadPagePositions dec dm j = .ok ((inputs.get ⟨j, hj⟩).1, rest)) ∧
    (∃ dq, addAll enc (freshPersistDoc inPath docIdx) inputs =
        .ok (List.range inputs.length, dq) ∧
      ∀ j (hj : j < inputs.length), ∃ rest,
        ReadPagePositions dec dq j = .ok ((inputs.get ⟨j, hj⟩).1, rest)) := by
  constructor
  · obtain ⟨d', dd', hadd, h1', h2', h3'⟩ :=
      addAll_mem enc inputs (freshMemDoc inPath docIdx) ⟨[], []⟩ rfl rfl hnz
    refine ⟨d', ?_, ?_⟩
    · rw [hadd]
      simp [List.range_eq_range']
    · intro j hj
      obtain ⟨ip', di', pdpl', dpers', ddata'⟩ := d'
      simp only at h1' h2'
      subst h1'; subst h2'
      simp only at h3'
      have hlen : dd'.pageNums.length = inputs.length := by
        rw [h3']; simp
      have hjlen : j < dd'.pageNums.length := by omega
      have hval : dd'.pageNums.getD j 0 = (inputs.get ⟨j, hj⟩).1 := by
        rw [h3']
        simp only [List.nil_append, List.getD_eq_getElem?_getD, List.getElem?_map]
        rw [List.getElem?_eq_getElem hj]
        simp [List.get_eq_getElem]
      have hne : (inputs.get ⟨j, hj⟩).1 ≠ 0 :=
        hnz _ (List.get_mem inputs j hj)
      refine ⟨(lookupDpl pdpl' (dd'.pageNums.getD j 0), none), ?_⟩
      simp only [ReadPagePositions]
      rw [if_pos hjlen, if_neg (by rw [hval]; exact hne), hval]
  · obtain ⟨d', dp', hadd, h1', h2', h3', h4'⟩ :=
      addAll_persist enc inputs (freshPersistDoc inPath docIdx) ⟨[], [], []⟩ rfl rfl hnz
    refine ⟨d', ?_, ?_⟩
    · rw [hadd]
      simp [List.range_eq_range']
    · intro j hj
      obtain ⟨ip', di', pdpl', dpers', ddata'⟩ := d'
      simp only at h1' h2'
      subst h1'; subst h2'
      simp only at h3' h4'
      obtain ⟨e, hget, hpn, hsize, hcheck, hslice⟩ :=
        newSpans_frame enc inputs ([] : List Nat) j hj
    -- transfer the frame description to the final state dp'
      have hspans : dp'.spans = newSpans enc 0 inputs := by
        rw [h3']; simp [newSpans]
      have hbytes : dp'.fileBytes = newBytes enc inputs := by
        rw [h4']; simp [newBytes]
      have hjlen : j < dp'.spans.length := by
        rw [hspans, newSpans_length]; exact hj
      have hget' : dp'.spans.get? j = some e := by
        rw [hspans]
        simpa using hget
      have hgete : dp'.spans.get ⟨j, hjlen⟩ = e := by
        have := List.get?_eq_get hjlen
        rw [hget'] at this
        exact (Option.some.inj this).symm
      have hslice' : (dp'.fileBytes.drop e.Offset).take e.Size =
          enc (inputs.get ⟨j, hj⟩).2.1 := by
        rw [hbytes]
        simpa using hslice
      have hne : e.PageNum ≠ 0 := by
        rw [hpn]
        exact hnz _ (List.get_mem inputs j hj)
      refine ⟨((dec (enc (inputs.get ⟨j, hj⟩).2.1)).1,
               (dec (enc (inputs.get ⟨j, hj⟩).2.1)).2), ?_⟩
      simp only [ReadPagePositions, readPersistedPagePositions]
      rw [dif_pos hjlen, hgete, if_neg hne, hslice',
        if_pos (by rw [hcheck]), hpn]

/-- C7 witness: the theorem applied to the concrete two-page input list. -/
theorem C7_index_monotonicity_witness :
    (∃ dm, addAll encW (freshMemDoc "a" 0) inputsW = .ok ([0, 1], dm) ∧
      ∀ j (hj : j < inputsW.length), ∃ rest,
        ReadPagePositions decW dm j = .ok ((inputsW.get ⟨j, hj⟩).1, rest)) ∧
    (∃ dq, addAll encW (freshPersistDoc "a" 0) inputsW = .ok ([0, 1], dq) ∧
      ∀ j (hj : j < inputsW.length), ∃ rest,
        ReadPagePositions decW dq j = .ok ((inputsW.get ⟨j, hj⟩).1, rest)) :=
  C7_index_monotonicity encW decW "a" 0 inputsW (by decide)

/-! ### Claim C8: line-number lookup -/

/-- C8, counterexample: at offset 2 of "a\n\nb" — an offset in
[0, len(text)) pointing at the newline that opens line 3 — getLineNumber
returns line 3 with text "b", which does not include the character at
offset 2 (the stripped leading newline), refuting the claim as stated. -/
theorem C8_counterexample :
    getLineNumber txtEx 2 = some (3, ['b']) ∧
    txtEx.getD 2 ' ' = '\n' ∧
    txtEx.getD 2 ' ' ∉ (['b'] : List Char) := by
  decide

/-- C8, amended: for every offset o in [0, len(text)) whose character is
not a newline, getLineNumber returns (i, line) where the line includes the
character at o and contains no newline at all — in particular not the
newline at endings[i]. (Offsets pointing at a newline are excluded: the
leading newline of a line is stripped from the returned text, and an
offset at the final newline would make the Go code panic on endings[i].) -/
theorem C8_line_number_law (text : List Char) (offset : Nat)
    (h1 : offset < text.length) (h2 : text.getD offset ' ' ≠ '\n') :
    ∃ i line, getLineNumber text offset = some (i, line) ∧
      text.getD offset ' ' ∈ line ∧ '\n' ∉ line := by
  classical
  set t : List Char :=
    if text.length = 0 ∨ text.getLast? ≠ some '\n' then text ++ ['\n'] else text with ht
  have hchar : text[offset]? = some (text.getD offset ' ') := by
    rw [List.getD_eq_getElem?_getD, List.getElem?_eq_getElem h1]
    rfl
  have htpre : ∀ k, k < text.length → t[k]? = text[k]? := by
    intro k hk
    rw [ht]
    split
    · exact List.getElem?_append_left hk
    · rfl
  have hq : ∃ q, offset < q ∧ t[q]? = some '\n' := by
    rw [ht]
    split
    · refine ⟨text.length, h1, ?_⟩
      rw [List.getElem?_append_right (Nat.le_refl _)]
      simp
    · rename_i hcnd
      push_neg at hcnd
      obtain ⟨hne0, hlast⟩ := hcnd
      have hlast' : text[text.length - 1]? = some '\n' := by
        rw [← List.getLast?_eq_getElem?]
        exact hlast
      have hofflt : offset < text.length - 1 := by
        rcases Nat.lt_or_ge offset (text.length - 1) with h | h
        · exact h
        · exfalso
          apply h2
          have hoeq : offset = text.length - 1 := by omega
          rw [List.getD_eq_getElem?_getD, hoeq, hlast']
          rfl
      exact ⟨text.length - 1, hofflt, hlast'⟩
  have hE : lineEndings text = 0 :: nlPositions t 0 := by
    simp only [lineEndings]
  set nls := nlPositions t 0 with hnls
  have hpw : List.Pairwise (fun p q => p < q) nls := by
    rw [hnls]
    exact nlPositions_pairwise t 0
  have hElen : (lineEndings text).length = nls.length + 1 := by
    rw [hE]
    rfl
  have hgetD0 : (lineEndings text).getD 0 0 = 0 := by
    rw [hE]
    rfl
  have hgetDsucc : ∀ m, (lineEndings text).getD (m + 1) 0 = nls.getD m 0 := by
    intro m
    rw [hE]
    rfl
  have hex : ∃ m, m < (lineEndings text).length ∧
      decide (offset < (lineEndings text).getD m 0) = true := by
    obtain ⟨q, hq1, hq2⟩ := hq
    have hqmem : q ∈ nls := by
      rw [hnls]
      have := nlPositions_complete t 0 q hq2
      simpa using this
    obtain ⟨m0, hm0, hm0eq⟩ := List.getElem_of_mem hqmem
    have hval : (lineEndings text).getD (m0 + 1) 0 = q := by
      rw [hgetDsucc, List.getD_eq_getElem?_getD, List.getElem?_eq_getElem hm0, hm0eq]
      rfl
    refine ⟨m0 + 1, by omega, ?_⟩
    rw [hval]
    simpa using hq1
  have hgl : getLineNumber text offset =
      (if goSortSearch (lineEndings text).length
            (fun j => decide (offset < (lineEndings text).getD j 0)) <
          (lineEndings text).length then
        some (goSortSearch (lineEndings text).length
            (fun j => decide (offset < (lineEndings text).getD j 0)),
          lineFor text
            ((lineEndings text).getD (goSortSearch (lineEndings text).length
              (fun j => decide (offset < (lineEndings text).getD j 0)) - 1) 0)
            ((lineEndings text).getD (goSortSearch (lineEndings text).length
              (fun j => decide (offset < (lineEndings text).getD j 0))) 0))
      else none) := rfl
  set I := goSortSearch (lineEndings text).length
    (fun j => decide (offset < (lineEndings text).getD j 0)) with hIdef
  have hisf : searchFrom (fun j => decide (offset < (lineEndings text).getD j 0))
      (lineEndings text).length 0 = I := hIdef.symm
  have hIlt : I < (lineEndings text).length := by
    obtain ⟨m, hm, hfm⟩ := hex
    have hlt := searchFrom_lt_of_exists
      (fun j => decide (offset < (lineEndings text).getD j 0))
      (lineEndings text).length 0 m (Nat.zero_le _) (by omega) hfm
    rw [hisf] at hlt
    omega
  have hfI : decide (offset < (lineEndings text).getD I 0) = true := by
    have h := searchFrom_found
      (fun j => decide (offset < (lineEndings text).getD j 0))
      (lineEndings text).length 0 (by rw [hisf]; omega)
    rw [hisf] at h
    exact h
  have hmin : ∀ m, m < I →
      decide (offset < (lineEndings text).getD m 0) = false := by
    intro m hm
    exact searchFrom_min
      (fun j => decide (offset < (lineEndings text).getD j 0))
      (lineEndings text).length 0 m (Nat.zero_le _) (by rw [hisf]; exact hm)
  have hI1 : 1 ≤ I := by
    by_contra hcon
    have hI0 : I = 0 := by omega
    have := hmin
    rw [hI0] at hfI
    rw [hgetD0] at hfI
    simp at hfI
  have hoffs1 : offset < (lineEndings text).getD I 0 := of_decide_eq_true hfI
  have hoffs0 : (lineEndings text).getD (I - 1) 0 ≤ offset := by
    have h := hmin (I - 1) (by omega)
    have h' := of_decide_eq_false h
    omega
  have hI1lt : I - 1 < nls.length := by
    rw [hElen] at hIlt
    omega
  have hofs1get : nls[I - 1] = (lineEndings text).getD I 0 := by
    have h' : (lineEndings text).getD I 0 = nls.getD (I - 1) 0 := by
      nth_rewrite 1 [show I = (I - 1) + 1 from by omega]
      rw [hgetDsucc]
    rw [h', List.getD_eq_getElem?_getD, List.getElem?_eq_getElem hI1lt]
    rfl
  rw [if_pos hIlt] at hgl
  -- no newline strictly between the two endings
  have hcore : ∀ p, (lineEndings text).getD (I - 1) 0 < p →
      p < (lineEndings text).getD I 0 → text[p]? ≠ some '\n' := by
    intro p hp0 hp1 hpnl
    have hplen : p < text.length := by
      obtain ⟨hh, _⟩ := List.getElem?_eq_some.1 hpnl
      exact hh
    have hpt : t[p]? = some '\n' := by
      rw [htpre p hplen]
      exact hpnl
    have hpmem : p ∈ nls := by
      rw [hnls]
      have := nlPositions_complete t 0 p hpt
      simpa using this
    have hplt : p < nls[I - 1] := by
      rw [hofs1get]
      exact hp1
    obtain ⟨m, hm, hmk, hmeq⟩ := pairwise_lt_between nls hpw (I - 1) hI1lt p hpmem hplt
    by_cases hI2 : 2 ≤ I
    · have hI2lt : I - 2 < nls.length := by omega
      have hofs0get : nls[I - 2] = (lineEndings text).getD (I - 1) 0 := by
        have h' : (lineEndings text).getD (I - 1) 0 = nls.getD (I - 2) 0 := by
          nth_rewrite 1 [show I - 1 = (I - 2) + 1 from by omega]
          rw [hgetDsucc]
        rw [h', List.getD_eq_getElem?_getD, List.getElem?_eq_getElem hI2lt]
        rfl
      have hmle : m ≤ I - 2 := by omega
      rcases Nat.eq_or_lt_of_le hmle with heq | hlt2
      · subst heq
        rw [hofs0get] at hmeq
        omega
      · have hmono := (List.pairwise_iff_getElem.1 hpw) m (I - 2) hm hI2lt hlt2
        rw [hmeq, hofs0get] at hmono
        omega
    · omega
  -- assemble
  refine ⟨I, lineFor text ((lineEndings text).getD (I - 1) 0)
      ((lineEndings text).getD I 0), hgl, ?_, ?_⟩
  · -- the character at offset is in the returned line
    simp only [lineFor]
    have hk0 : offset - (lineEndings text).getD (I - 1) 0 <
        (lineEndings text).getD I 0 - (lineEndings text).getD (I - 1) 0 := by
      omega
    have hsl : ((text.drop ((lineEndings text).getD (I - 1) 0)).take
        ((lineEndings text).getD I 0 - (lineEndings text).getD (I - 1) 0))[offset -
          (lineEndings text).getD (I - 1) 0]? = text[offset]? := by
      rw [slice_getElem? text _ _ _ hk0]
      congr 1
      omega
    split
    · rename_i hhd
      -- leading newline is stripped; offset cannot be that newline
      have hne0 : offset ≠ (lineEndings text).getD (I - 1) 0 := by
        intro heq
        apply h2
        rw [List.head?_eq_getElem?] at hhd
        by_cases hb : 0 < (lineEndings text).getD I 0 - (lineEndings text).getD (I - 1) 0
        · rw [slice_getElem? text _ _ 0 hb] at hhd
          rw [Nat.add_zero] at hhd
          rw [← heq] at hhd
          rw [hchar] at hhd
          exact Option.some.inj hhd
        · omega
      refine List.mem_iff_getElem?.2 ⟨offset - (lineEndings text).getD (I - 1) 0 - 1, ?_⟩
      rw [List.getElem?_tail]
      have harith : offset - (lineEndings text).getD (I - 1) 0 - 1 + 1 =
          offset - (lineEndings text).getD (I - 1) 0 := by omega
      rw [harith, hsl]
      exact hchar
    · refine List.mem_iff_getElem?.2 ⟨offset - (lineEndings text).getD (I - 1) 0, ?_⟩
      rw [hsl]
      exact hchar
  · -- no newline in the returned line
    simp only [lineFor]
    split
    · rename_i hhd
      intro hmem
      obtain ⟨k, hk⟩ := List.mem_iff_getElem?.1 hmem
      rw [List.getElem?_tail] at hk
      have hkb : k + 1 < (lineEndings text).getD I 0 - (lineEndings text).getD (I - 1) 0 := by
        obtain ⟨hh, _⟩ := List.getElem?_eq_some.1 hk
        have hlen := List.length_take
          ((lineEndings text).getD I 0 - (lineEndings text).getD (I - 1) 0)
          (text.drop ((lineEndings text).getD (I - 1) 0))
        rw [hlen] at hh
        have := Nat.min_le_left
          ((lineEndings text).getD I 0 - (lineEndings text).getD (I - 1) 0)
          (text.drop ((lineEndings text).getD (I - 1) 0)).length
        omega
      rw [slice_getElem? text _ _ _ hkb] at hk
      exact hcore ((lineEndings text).getD (I - 1) 0 + (k + 1)) (by omega) (by omega) hk
    · rename_i hhd
      intro hmem
      obtain ⟨k, hk⟩ := List.mem_iff_getElem?.1 hmem
      have hkb : k < (lineEndings text).getD I 0 - (lineEndings text).getD (I - 1) 0 := by
        obtain ⟨hh, _⟩ := List.getElem?_eq_some.1 hk
        have hlen := List.length_take
          ((lineEndings text).getD I 0 - (lineEndings text).getD (I - 1) 0)
          (text.drop ((lineEndings text).getD (I - 1) 0))
        rw [hlen] at hh
        have := Nat.min_le_left
          ((lineEndings text).getD I 0 - (lineEndings text).getD (I - 1) 0)
          (text.drop ((lineEndings text).getD (I - 1) 0)).length
        omega
      cases k with
      | zero =>
        apply hhd
        rw [List.head?_eq_getElem?]
        exact hk
      | succ k' =>
        rw [slice_getElem? text _ _ _ hkb] at hk
        exact hcore ((lineEndings text).getD (I - 1) 0 + (k' + 1)) (by omega) (by omega) hk

/-- C8 witness: the amended law applied at offset 0 of "Hi\nx". -/
theorem C8_line_number_law_witness :
    ∃ i line, getLineNumber txtW 0 = some (i, line) ∧
      txtW.getD 0 ' ' ∈ line ∧ '\n' ∉ line :=
  C8_line_number_law txtW 0 (by decide) (by decide)



/-! ### Claim C9: catalog mapping invariants -/

/-- C9: after any sequence of addFile calls (the only catalog mutation done
by CreatePositionsDoc) on a store opened from a memory root or from a
loaded fileList with distinct hashes, the three derived maps are consistent
with the ordered fileList — hashIndex maps entry i's hash to i, indexHash
maps i back to that hash, hashPath maps the hash to the first submission's
path (the appended entry's InPath, never overwritten) — and any further
sequence of additions never rebinds an already-assigned document index. -/
theorem C9_mapping_invariants (root : String)
    (loaded fds fds₂ : List FileDesc)
    (hnd : (loaded.map FileDesc.Hash).Nodup) :
    Consistent (applyAddFiles (OpenPositionsState root loaded) fds) ∧
    ∀ i h,
      (applyAddFiles (OpenPositionsState root loaded) fds).indexHash i = some h →
      (applyAddFiles (applyAddFiles (OpenPositionsState root loaded) fds)
          fds₂).indexHash i = some h := by
  have h0 := open_consistent root loaded hnd
  have h1 := applyAddFiles_preserves fds _ h0
  exact ⟨h1.1, fun i h hh => (applyAddFiles_preserves fds₂ _ h1.1).2 i h hh⟩

/-- C9 witness: the invariants instantiated on a memory store with two
additions and one further addition. -/
theorem C9_mapping_invariants_witness :
    Consistent (applyAddFiles (OpenPositionsState "" []) [fdW, fdW2]) ∧
    ∀ i h,
      (applyAddFiles (OpenPositionsState "" []) [fdW, fdW2]).indexHash i = some h →
      (applyAddFiles (applyAddFiles (OpenPositionsState "" []) [fdW, fdW2])
          [fdW3]).indexHash i = some h :=
  C9_mapping_invariants "" [] [fdW, fdW2] [fdW3] (by decide)

/-! ### Claim C10: PdfMatchSet.Filter frame effect -/

/-- C10: Filter changes only the Matches field — TotalMatches and
SearchDuration are copied from the input set, and the retained matches are
a sublist (order-preserving subsequence) of the input matches. -/
theorem C10_filter_frame (s : PdfMatchSet) (maxResultsPerFile : Int) :
    (Filter s maxResultsPerFile).TotalMatches = s.TotalMatches ∧
    (Filter s maxResultsPerFile).SearchDuration = s.SearchDuration ∧
    (Filter s maxResultsPerFile).Matches.Sublist s.Matches :=
  ⟨rfl, rfl, filterLoop_sublist maxResultsPerFile s.Matches (fun _ => 0)⟩

end PdfSearch
